import Mathlib

/-!
Verification of `crates/bevy_dev_tools/src/cli_deserialize.rs`.

The source is a nom-based parser for a CLI argument grammar plus two serde
deserializers (`TypedCliDeserializer`, `CliDeserializer`).  Strings are
modelled as `List Char` (the `&str` slices of the source), nom's
`IResult<&str, T>` as `Option (List Char × T)` where `some (remaining, out)`
is `Ok((remaining, out))` and `none` is a recoverable parse error, and Rust
panics (`unimplemented!`, out-of-bounds indexing, `Option::unwrap` on `None`)
as an explicit `panicked` outcome distinct from returned errors.
-/

namespace Cli

/-- Source `is_not_space`: `c != ' ' && c != '\t' && c != '\n'`. -/
def is_not_space (c : Char) : Bool :=
  decide (c ≠ ' ' ∧ c ≠ '\t' ∧ c ≠ '\n')

/-- nom `space0`: consume zero or more spaces or tabs.  Returns the remaining
input (the consumed run is never used by the source). -/
def space0 (s : List Char) : List Char :=
  s.dropWhile (fun c => decide (c = ' ' ∨ c = '\t'))

/-- nom `take_while1 p`: succeeds iff the maximal prefix satisfying `p` is
nonempty; returns `(remaining, consumed)` in nom's order. -/
def takeWhile1 (p : Char → Bool) (s : List Char) : Option (List Char × List Char) :=
  if s.takeWhile p = [] then none else some (s.dropWhile p, s.takeWhile p)

/-- Source `parse_quoted_string`:
`recognize(delimited(char('"'), is_not("\""), char('"')))`.
`is_not("\"")` is `take_while1 (· ≠ '"')`, so an empty interior fails, and the
`recognize` keeps both delimiters in the output. -/
def parse_quoted_string (s : List Char) : Option (List Char × List Char) :=
  match s with
  | [] => none
  | c :: rest =>
    if c = '"' then
      let body := rest.takeWhile (fun x => decide (x ≠ '"'))
      if body = [] then none
      else
        match rest.dropWhile (fun x => decide (x ≠ '"')) with
        | [] => none
        | c2 :: rest2 => if c2 = '"' then some (rest2, '"' :: (body ++ ['"'])) else none
    else none

/-- Source `parse_ron_value`:
`recognize(delimited(char('('), is_not(")"), char(')')))`. -/
def parse_ron_value (s : List Char) : Option (List Char × List Char) :=
  match s with
  | [] => none
  | c :: rest =>
    if c = '(' then
      let body := rest.takeWhile (fun x => decide (x ≠ ')'))
      if body = [] then none
      else
        match rest.dropWhile (fun x => decide (x ≠ ')')) with
        | [] => none
        | c2 :: rest2 => if c2 = ')' then some (rest2, '(' :: (body ++ [')'])) else none
    else none

/-- Source `parse_value`:
`preceded(space0, alt((parse_quoted_string, parse_ron_value, take_while1(is_not_space))))`. -/
def parse_value (s : List Char) : Option (List Char × List Char) :=
  let s1 := space0 s
  match parse_quoted_string s1 with
  | some r => some r
  | none =>
    match parse_ron_value s1 with
    | some r => some r
    | none => takeWhile1 is_not_space s1

/-- Source `parse_argument`.  After `space0`, an input starting with `--` is a
keyed token: `preceded(tag("--"), take_while1(|c| c != ' '))` yields the key and
`opt(preceded(space0, parse_value))` the optional value (the extra `space0` is
absorbed by the one at the head of `parse_value`, `dropWhile` being idempotent).
Otherwise a positional token `(value, None)` is produced.  The `take 2`
comparison models `input.starts_with("--")` and `tag("--")` consuming the two
dashes. -/
def parse_argument (s : List Char) :
    Option (List Char × (List Char × Option (List Char))) :=
  let s1 := space0 s
  if s1.take 2 = ['-', '-'] then
    match takeWhile1 (fun c => decide (c ≠ ' ')) (s1.drop 2) with
    | none => none
    | some (s3, key) =>
      match parse_value s3 with
      | some (s4, v) => some (s4, (key, some v))
      | none => some (s3, (key, none))
  else
    match parse_value s1 with
    | some (s2, v) => some (s2, (v, none))
    | none => none

/-- nom `many0(parse_argument)`, fuel-indexed.  `many0` stops (successfully)
at the first failure of the inner parser and returns the unconsumed rest.
Every success of `parse_argument` strictly consumes input, so fuel
`s.length + 1` is never exhausted before the natural stop. -/
def manyAux : Nat → List Char → List (List Char × Option (List Char)) × List Char
  | 0, s => ([], s)
  | fuel + 1, s =>
    match parse_argument s with
    | none => ([], s)
    | some (r, t) =>
      let p := manyAux fuel r
      (t :: p.1, p.2)

/-- The token pass of source `parse_arguments`: `many0(parse_argument)(input)`,
returning the token list and the unconsumed rest of the input. -/
def tokenizeArgs (s : List Char) : List (List Char × Option (List Char)) × List Char :=
  manyAux (s.length + 1) s

/-- Model of Rust's `HashMap::insert` as used by the source: the binding for
`k` is replaced, every other binding is kept.  (The `HashMap` has no
meaningful iteration order; only key lookup is relied on by the claims.) -/
def mapInsert (m : List (List Char × List Char)) (k v : List Char) :
    List (List Char × List Char) :=
  (k, v) :: m.filter (fun p => decide (p.1 ≠ k))

/-- Lookup in the modelled `HashMap`. -/
def mapLookup (m : List (List Char × List Char)) (k : List Char) : Option (List Char) :=
  (m.find? (fun p => decide (p.1 = k))).map Prod.snd

/-- Outcome of the resolver loop of `parse_arguments`: either the built map,
or a Rust panic (the source indexes `fields[positional_index]` unchecked). -/
inductive ROut where
  | ok (map : List (List Char × List Char))
  | panicked
deriving DecidableEq

/-- The resolver loop of source `parse_arguments` (lines 66-76): walk the
tokens in order with a positional cursor; a token with a value inserts
`(key, value)`, a token without a value inserts `(fields[positional_index],
key)` and increments the cursor.  `fields.get? i = none` is the out-of-bounds
panic of `fields[positional_index]`. -/
def resolveArgs :
    List (List Char × Option (List Char)) → List (List Char) → Nat →
    List (List Char × List Char) → ROut
  | [], _, _, m => .ok m
  | (key, some v) :: rest, fields, i, m =>
    resolveArgs rest fields i (mapInsert m key v)
  | (key, none) :: rest, fields, i, m =>
    match fields.get? i with
    | some f => resolveArgs rest fields (i + 1) (mapInsert m f key)
    | none => .panicked

/-- Outcome of source `parse_arguments`: `Ok((rest, map))` or a panic. -/
inductive POut where
  | ok (rest : List Char) (map : List (List Char × List Char))
  | panicked
deriving DecidableEq

/-- Source `parse_arguments`: `many0(parse_argument)` then the resolver loop
over the collected tokens. -/
def parse_arguments (input : List Char) (fields : List (List Char)) : POut :=
  match resolveArgs (tokenizeArgs input).1 fields 0 [] with
  | .ok m => .ok (tokenizeArgs input).2 m
  | .panicked => .panicked

/-- The serde `Deserializer` methods exercised by the claims: `deserialize_any`
plus every method of the two `forward_to_deserialize_any!` lists, and the two
implemented methods `deserialize_struct` and `deserialize_map`. -/
inductive SerdeOp where
  | any | bool | i8 | i16 | i32 | i64 | i128 | u8 | u16 | u32 | u64 | u128
  | f32 | f64 | char | str | string | bytes | byte_buf | option | unit
  | unit_struct | newtype_struct | seq | tuple | tuple_struct | map
  | struct_ | enum_ | identifier | ignored_any
deriving DecidableEq

/-- Outcome of driving one of the deserializers: the map handed to
`visitor.visit_map` (field/raw-text pairs for the typed path, the single
`(type_path, remaining args)` entry for the dynamic path), a returned
`de::value::Error`, or a Rust panic. -/
inductive VOut where
  | visitMap (entries : List (List Char × List Char))
  | err
  | panicked
deriving DecidableEq

/-- Source `impl Deserializer for TypedCliDeserializer`: `deserialize_struct`
runs `parse_arguments` and hands the map to `visitor.visit_map`;
`deserialize_any` is `unimplemented!("deserialize_any not implemented")` (a
panic), and every other method is forwarded to it by
`forward_to_deserialize_any!`. -/
def typedCliDeserialize (input : List Char) (fields : List (List Char)) :
    SerdeOp → VOut
  | .struct_ =>
    match parse_arguments input fields with
    | .ok _ m => .visitMap m
    | .panicked => .panicked
  | _ => .panicked

/-- Source `TypeRegistration` as seen by `deserialize_map`: the short
identifier (`type_info().type_path_table().ident()`, absent for primitives)
used for the case-insensitive match, and the canonical full
`type_info().type_path()` used as the key of the synthetic map. -/
structure TypeRegistration where
  ident : Option (List Char)
  type_path : List Char
deriving DecidableEq

/-- The case-insensitive identifier comparison of `deserialize_map`:
`ident.to_lowercase() == struct_name.to_lowercase()`, `false` when the
registration has no short identifier. -/
def regMatches (struct_name : List Char) (reg : TypeRegistration) : Bool :=
  match reg.ident with
  | some id => decide (id.map Char.toLower = struct_name.map Char.toLower)
  | none => false

/-- Source `impl Deserializer for CliDeserializer`: `deserialize_map` splits
the first space-delimited run (`take_while1(|c| c != ' ')`, whose failure on
an empty first run is the `Err("Parse error")` return), finds the first
registration whose identifier matches case-insensitively (the `for`/`break`
loop over `type_registration.iter()`), and hands the visitor a single-entry
map from the registration's `type_path` to the delegated typed decode of the
remaining input (`SingleMapDeserializer`); `registration.unwrap()` panics when
no registration matched.  `deserialize_any` is `unimplemented!` and all other
methods forward to it. -/
def cliDeserialize (input : List Char) (registry : List TypeRegistration) :
    SerdeOp → VOut
  | .map =>
    let struct_name := input.takeWhile (fun c => decide (c ≠ ' '))
    if struct_name = [] then .err
    else
      match registry.find? (regMatches struct_name) with
      | some reg => .visitMap [(reg.type_path, input.drop struct_name.length)]
      | none => .panicked
  | _ => .panicked

/-- Modelled from the spec: the embedded value-notation decoder (the external
RON crate invoked by `CliMapVisitor::next_value_seed`, not part of this
repository) decodes a double-quoted span to its interior text, exactly. -/
def ronDecodeString (s : List Char) : Option (List Char) :=
  match s with
  | [] => none
  | c :: rest =>
    if c = '"' then
      match rest.getLast? with
      | some c2 => if c2 = '"' then some rest.dropLast else none
      | none => none
    else none

/-- Modelled from the spec: the embedded value-notation decoder decodes a
bare decimal digit run to the corresponding number. -/
def ronDecodeNat (s : List Char) : Option Nat :=
  if s ≠ [] ∧ s.all Char.isDigit then
    some (s.foldl (fun acc c => acc * 10 + (c.toNat - 48)) 0)
  else none

/-- Number of positional (valueless) tokens in a token sequence. -/
def countPositional (toks : List (List Char × Option (List Char))) : Nat :=
  (toks.filter (fun t => t.2.isNone)).length

/-- Declarative companion of the resolver, following the spec's words: walk
the tokens in original order with a positional cursor, emitting the
`(field, raw text)` assignment each token performs. -/
def specAssign :
    List (List Char × Option (List Char)) → List (List Char) → Nat →
    List (List Char × List Char)
  | [], _, _ => []
  | (key, some v) :: rest, fields, i => (key, v) :: specAssign rest fields i
  | (key, none) :: rest, fields, i =>
    (fields.getD i [], key) :: specAssign rest fields (i + 1)

/-- Fold an assignment sequence left to right, a later assignment to a field
overwriting an earlier one. -/
def foldAssign (assigns : List (List Char × List Char)) (init : Option (List Char))
    (k : List Char) : Option (List Char) :=
  assigns.foldl (fun acc p => if p.1 = k then some p.2 else acc) init

/-- Last-write-wins reading of an assignment sequence, per the spec. -/
def lastWins (assigns : List (List Char × List Char)) (k : List Char) :
    Option (List Char) :=
  foldAssign assigns none k

/-- Keyed token sequence `--field_i value_i` built from field/value pairs. -/
def keyedTokens (pairs : List (List Char × List Char)) :
    List (List Char × Option (List Char)) :=
  pairs.map (fun p => (p.1, some p.2))

/-! Helper lemmas about the list combinators. -/

theorem takeWhile_append_all {p : Char → Bool} {a : List Char} (b : List Char)
    (h : ∀ c ∈ a, p c = true) : (a ++ b).takeWhile p = a ++ b.takeWhile p := by
  induction a with
  | nil => simp
  | cons x xs ih =>
    have hx : p x = true := h x (List.mem_cons_self x xs)
    simp only [List.cons_append, List.takeWhile_cons, hx, if_true]
    rw [ih fun c hc => h c (List.mem_cons_of_mem x hc)]

theorem dropWhile_append_all {p : Char → Bool} {a : List Char} (b : List Char)
    (h : ∀ c ∈ a, p c = true) : (a ++ b).dropWhile p = b.dropWhile p := by
  induction a with
  | nil => simp
  | cons x xs ih =>
    have hx : p x = true := h x (List.mem_cons_self x xs)
    simp only [List.cons_append, List.dropWhile_cons, hx, if_true]
    exact ih fun c hc => h c (List.mem_cons_of_mem x hc)

theorem takeWhile_all {p : Char → Bool} {a : List Char}
    (h : ∀ c ∈ a, p c = true) : a.takeWhile p = a := by
  have := takeWhile_append_all (p := p) [] h
  simpa using this

theorem dropWhile_all {p : Char → Bool} {a : List Char}
    (h : ∀ c ∈ a, p c = true) : a.dropWhile p = [] := by
  have := dropWhile_append_all (p := p) [] h
  simpa using this

theorem dropWhile_cons_neg {p : Char → Bool} {x : Char} {xs : List Char}
    (h : p x = false) : (x :: xs).dropWhile p = x :: xs := by
  simp [List.dropWhile_cons, h]

theorem takeWhile_cons_neg {p : Char → Bool} {x : Char} {xs : List Char}
    (h : p x = false) : (x :: xs).takeWhile p = [] := by
  simp [List.takeWhile_cons, h]

theorem find?_none_append {α : Type} {p : α → Bool} {l1 l2 : List α}
    (h : ∀ x ∈ l1, p x = false) : (l1 ++ l2).find? p = l2.find? p := by
  induction l1 with
  | nil => simp
  | cons x xs ih =>
    have hx : p x = false := h x (List.mem_cons_self x xs)
    simp only [List.cons_append, List.find?_cons, hx]
    exact ih fun y hy => h y (List.mem_cons_of_mem x hy)

theorem manyAux_nil (fuel : Nat) : manyAux fuel [] = ([], []) := by
  cases fuel with
  | zero => rfl
  | succ n => rfl

/-! Lemmas about the modelled `HashMap`. -/

theorem find?_filter_keep {k key : List Char} (m : List (List Char × List Char))
    (h : k ≠ key) :
    (m.filter (fun p => decide (p.1 ≠ k))).find? (fun p => decide (p.1 = key)) =
      m.find? (fun p => decide (p.1 = key)) := by
  induction m with
  | nil => simp
  | cons a l ih =>
    by_cases ha : a.1 = k
    · have h1 : decide (a.1 ≠ k) = false := by simp [ha]
      have h2 : decide (a.1 = key) = false := by simp [ha]; exact h
      simp only [List.filter_cons, h1, if_neg, List.find?_cons, h2]
      simpa [h2] using ih
    · have h1 : decide (a.1 ≠ k) = true := by simp [ha]
      simp only [List.filter_cons, h1, if_true, List.find?_cons]
      by_cases hk : a.1 = key
      · simp [hk]
      · have h2 : decide (a.1 = key) = false := by simp [hk]
        simp only [h2]
        exact ih

theorem mapLookup_insert (m : List (List Char × List Char)) (k v key : List Char) :
    mapLookup (mapInsert m k v) key = if k = key then some v else mapLookup m key := by
  by_cases h : k = key
  · simp [mapLookup, mapInsert, List.find?_cons, h]
  · have h2 : decide (k = key) = false := by simp [h]
    simp only [mapLookup, mapInsert, List.find?_cons, h2, if_neg h]
    rw [find?_filter_keep m h]

theorem mapInsert_nodupKeys {m : List (List Char × List Char)} (k v : List Char)
    (h : (m.map Prod.fst).Nodup) : ((mapInsert m k v).map Prod.fst).Nodup := by
  simp only [mapInsert, List.map_cons, List.nodup_cons]
  constructor
  · intro hmem
    rcases List.mem_map.mp hmem with ⟨p, hp, hfst⟩
    have := List.of_mem_filter hp
    rw [hfst] at this
    simp at this
  · have hsub : (m.filter (fun p => decide (p.1 ≠ k))).Sublist m := List.filter_sublist m
    exact (hsub.map Prod.fst).nodup h

/-! The resolver loop refines the declarative last-write-wins walk. -/

theorem countPositional_cons_some (key v : List Char)
    (rest : List (List Char × Option (List Char))) :
    countPositional ((key, some v) :: rest) = countPositional rest := by
  simp [countPositional, List.filter_cons]

theorem countPositional_cons_none (key : List Char)
    (rest : List (List Char × Option (List Char))) :
    countPositional ((key, none) :: rest) = countPositional rest + 1 := by
  simp [countPositional, List.filter_cons]

theorem foldAssign_cons (a : List Char × List Char)
    (assigns : List (List Char × List Char)) (init : Option (List Char))
    (k : List Char) :
    foldAssign (a :: assigns) init k =
      foldAssign assigns (if a.1 = k then some a.2 else init) k := by
  simp [foldAssign]

theorem resolveArgs_spec (toks : List (List Char × Option (List Char)))
    (fields : List (List Char)) :
    ∀ (i : Nat) (m : List (List Char × List Char)),
      countPositional toks + i ≤ fields.length →
      ∃ m', resolveArgs toks fields i m = ROut.ok m' ∧
        (∀ k, mapLookup m' k = foldAssign (specAssign toks fields i) (mapLookup m k) k) ∧
        ((m.map Prod.fst).Nodup → (m'.map Prod.fst).Nodup) := by
  induction toks with
  | nil =>
    intro i m _
    exact ⟨m, rfl, fun k => rfl, id⟩
  | cons t rest ih =>
    rcases t with ⟨key, v⟩
    cases v with
    | some v =>
      intro i m h
      rw [countPositional_cons_some] at h
      obtain ⟨m', e, hl, hn⟩ := ih i (mapInsert m key v) h
      refine ⟨m', e, ?_, fun hm => hn (mapInsert_nodupKeys key v hm)⟩
      intro k
      rw [hl k, specAssign, foldAssign_cons, mapLookup_insert]
    | none =>
      intro i m h
      rw [countPositional_cons_none] at h
      have hi : i < fields.length := by omega
      have hf : fields.get? i = some (fields.get ⟨i, hi⟩) := List.get?_eq_get hi
      have hd : fields.getD i [] = fields.get ⟨i, hi⟩ := by
        rw [List.getD_eq_getD_get?, hf]
        rfl
      obtain ⟨m', e, hl, hn⟩ :=
        ih (i + 1) (mapInsert m (fields.get ⟨i, hi⟩) key) (by omega)
      refine ⟨m', ?_, ?_, fun hm => hn (mapInsert_nodupKeys _ key hm)⟩
      · rw [resolveArgs, hf]
        exact e
      · intro k
        rw [hl k, specAssign, foldAssign_cons, mapLookup_insert, hd]

/-! Permutation invariance of the last-write-wins fold over distinct keys. -/

theorem foldAssign_perm {l1 l2 : List (List Char × List Char)} (hp : l1.Perm l2) :
    (l1.map Prod.fst).Nodup →
      ∀ (init : Option (List Char)) (k : List Char),
        foldAssign l1 init k = foldAssign l2 init k := by
  induction hp with
  | nil => intro _ init k; rfl
  | cons x hp ih =>
    intro hnd init k
    simp only [List.map_cons, List.nodup_cons] at hnd
    rw [foldAssign_cons, foldAssign_cons]
    exact ih hnd.2 _ k
  | swap x y l =>
    intro hnd init k
    simp only [List.map_cons, List.nodup_cons, List.mem_cons] at hnd
    have hxy : y.1 ≠ x.1 := fun e => hnd.1 (Or.inl e)
    rw [foldAssign_cons, foldAssign_cons, foldAssign_cons, foldAssign_cons]
    by_cases h1 : x.1 = k
    · by_cases h2 : y.1 = k
      · exact absurd (h2.trans h1.symm) hxy
      · simp [h1, h2]
    · by_cases h2 : y.1 = k <;> simp [h1, h2]
  | trans hp1 hp2 ih1 ih2 =>
    intro hnd init k
    rw [ih1 hnd init k]
    exact ih2 ((hp1.map Prod.fst).nodup hnd) init k

theorem specAssign_keyed (pairs : List (List Char × List Char))
    (fields : List (List Char)) (i : Nat) :
    specAssign (keyedTokens pairs) fields i = pairs := by
  induction pairs generalizing i with
  | nil => rfl
  | cons p rest ih =>
    simp only [keyedTokens, List.map_cons, specAssign, Prod.mk.eta]
    exact congrArg (fun l => p :: l) (ih i)

theorem countPositional_keyed (pairs : List (List Char × List Char)) :
    countPositional (keyedTokens pairs) = 0 := by
  induction pairs with
  | nil => rfl
  | cons p rest ih => simp [keyedTokens, countPositional] at ih ⊢; exact ih

/-! The struct decode of `TypedCliDeserializer` is a function of the token
list alone: the unconsumed rest of the input is dropped. -/

theorem typed_struct_eq (input : List Char) (fields : List (List Char)) :
    typedCliDeserialize input fields SerdeOp.struct_ =
      match resolveArgs (tokenizeArgs input).1 fields 0 [] with
      | ROut.ok m => VOut.visitMap m
      | ROut.panicked => VOut.panicked := by
  show (match parse_arguments input fields with
        | POut.ok _ m => VOut.visitMap m
        | POut.panicked => VOut.panicked) = _
  rw [parse_arguments]
  cases resolveArgs (tokenizeArgs input).1 fields 0 [] with
  | ok m => rfl
  | panicked => rfl

/-! Shape lemmas for the individual parsers. -/

theorem parse_argument_nil : parse_argument [] = none := rfl

theorem parse_quoted_string_not_quote (c : Char) (rest : List Char) (h : c ≠ '"') :
    parse_quoted_string (c :: rest) = none := by
  simp only [parse_quoted_string]
  rw [if_neg h]

theorem parse_ron_value_not_paren (c : Char) (rest : List Char) (h : c ≠ '(') :
    parse_ron_value (c :: rest) = none := by
  simp only [parse_ron_value]
  rw [if_neg h]

theorem parse_quoted_string_unterminated (body : List Char)
    (h : ∀ c ∈ body, c ≠ '"') :
    parse_quoted_string ('"' :: body) = none := by
  have hall : ∀ c ∈ body, (fun x => decide (x ≠ '"')) c = true := by
    intro c hc
    simp only [decide_eq_true_eq]
    exact h c hc
  simp only [parse_quoted_string]
  rw [if_pos trivial, takeWhile_all hall, dropWhile_all hall]
  by_cases hb : body = []
  · rw [if_pos hb]
  · rw [if_neg hb]

theorem parse_ron_value_unterminated (body : List Char)
    (h : ∀ c ∈ body, c ≠ ')') :
    parse_ron_value ('(' :: body) = none := by
  have hall : ∀ c ∈ body, (fun x => decide (x ≠ ')')) c = true := by
    intro c hc
    simp only [decide_eq_true_eq]
    exact h c hc
  simp only [parse_ron_value]
  rw [if_pos trivial, takeWhile_all hall, dropWhile_all hall]
  by_cases hb : body = []
  · rw [if_pos hb]
  · rw [if_neg hb]

/-- When the quoted and parenthesized alternatives both fail and every
character is non-whitespace, `parse_argument` consumes the whole input as one
positional bareword token. -/
theorem parse_argument_bareword (d : Char) (body : List Char)
    (hd1 : is_not_space d = true) (hd2 : d ≠ '-')
    (hq : parse_quoted_string (d :: body) = none)
    (hr : parse_ron_value (d :: body) = none)
    (hall : ∀ c ∈ body, is_not_space c = true) :
    parse_argument (d :: body) = some ([], (d :: body, none)) := by
  have hallc : ∀ c ∈ d :: body, is_not_space c = true := by
    intro c hc
    rcases List.mem_cons.mp hc with rfl | hc2
    · exact hd1
    · exact hall c hc2
  have hsp : space0 (d :: body) = d :: body := by
    apply dropWhile_cons_neg
    have hd := hd1
    simp only [is_not_space, decide_eq_true_eq] at hd
    simp only [decide_eq_false_iff_not]
    rintro (rfl | rfl)
    · exact hd.1 rfl
    · exact hd.2.1 rfl
  have htake : List.take 2 (d :: body) ≠ ['-', '-'] := by
    simp only [List.take_succ_cons, ne_eq, List.cons.injEq, not_and]
    intro he
    exact absurd he hd2
  rw [parse_argument]
  simp only [hsp]
  rw [if_neg htake, parse_value]
  simp only [hsp]
  rw [hq, hr, takeWhile1, if_neg (by rw [takeWhile_all hallc]; simp),
    takeWhile_all hallc, dropWhile_all hallc]

/-! Claim theorems. -/

/-- Claim C1 (refuted, code bug): with schema `["gold"]` and input `"100 200"`
(two positional tokens against one schema field) `parse_arguments` does not
fail with an `ArityError` returned to the caller: the source indexes
`fields[positional_index]` out of bounds and panics, aborting the call. -/
theorem c1_arity_overflow_panics :
    parse_arguments "100 200".toList ["gold".toList] = POut.panicked := by
  decide

/-- Claim C2 (refuted, code bug): with a registry containing only
`SetGoldReflect` and input `"unknowncmd 1"`, no registration matches the first
token, and `deserialize_map` does not return a `TypeNotFoundError`: the source
calls `registration.unwrap()` on `None` and panics. -/
theorem c2_type_not_found_panics :
    cliDeserialize "unknowncmd 1".toList
      [⟨some "SetGoldReflect".toList, "tests::SetGoldReflect".toList⟩]
      SerdeOp.map = VOut.panicked := by
  decide

/-- Claim C4: for every token sequence in which every keyed token carries a
value (so the valueless tokens are exactly the positional ones) and the
positional count does not exceed the schema length, the resolver loop
succeeds, walking the tokens in original order with a positional cursor: a
keyed token inserts `(key, value)` with a later duplicate overwriting an
earlier one, a positional token inserts `(schema[i], value)` and increments
the cursor; the resulting map's keys are unique and lookup agrees with the
last write for each field. -/
theorem c4_resolver_walk (toks : List (List Char × Option (List Char)))
    (fields : List (List Char)) (h : countPositional toks ≤ fields.length) :
    ∃ m, resolveArgs toks fields 0 [] = ROut.ok m ∧
      (m.map Prod.fst).Nodup ∧
      ∀ k, mapLookup m k = lastWins (specAssign toks fields 0) k := by
  obtain ⟨m, e, hl, hn⟩ := resolveArgs_spec toks fields 0 [] (by simpa using h)
  exact ⟨m, e, hn (by simp), fun k => hl k⟩

/-- Witness for C4 at a concrete token sequence mixing a positional token and
a duplicated keyed token. -/
theorem c4_resolver_walk_witness :
    countPositional [("x5".toList, none), ("gold".toList, some "5".toList),
        ("gold".toList, some "7".toList)] ≤
      (["gold".toList, "arg1".toList] : List (List Char)).length ∧
    (∃ m, resolveArgs [("x5".toList, none), ("gold".toList, some "5".toList),
        ("gold".toList, some "7".toList)] ["gold".toList, "arg1".toList] 0 [] =
          ROut.ok m ∧
      (m.map Prod.fst).Nodup ∧
      ∀ k, mapLookup m k =
        lastWins (specAssign [("x5".toList, none), ("gold".toList, some "5".toList),
          ("gold".toList, some "7".toList)] ["gold".toList, "arg1".toList] 0) k) :=
  ⟨by decide, c4_resolver_walk _ _ (by decide)⟩

/-- Claim C6: over a schema of distinct fields, decoding any permutation of
the keyed tokens `--field_i value_i` yields exactly the same field-to-value
mapping as decoding them in the canonical order. -/
theorem c6_keyed_permutation (pairs pairs' : List (List Char × List Char))
    (fields : List (List Char)) (hp : pairs.Perm pairs')
    (hnd : (pairs.map Prod.fst).Nodup) :
    ∃ m m', resolveArgs (keyedTokens pairs) fields 0 [] = ROut.ok m ∧
      resolveArgs (keyedTokens pairs') fields 0 [] = ROut.ok m' ∧
      ∀ k, mapLookup m k = mapLookup m' k := by
  obtain ⟨m, e, hl, _⟩ := resolveArgs_spec (keyedTokens pairs) fields 0 []
    (by rw [countPositional_keyed]; omega)
  obtain ⟨m', e', hl', _⟩ := resolveArgs_spec (keyedTokens pairs') fields 0 []
    (by rw [countPositional_keyed]; omega)
  refine ⟨m, m', e, e', fun k => ?_⟩
  rw [hl k, hl' k, specAssign_keyed, specAssign_keyed]
  exact foldAssign_perm hp hnd _ k

/-- Witness for C6 at a two-field schema with the tokens swapped. -/
theorem c6_keyed_permutation_witness :
    ([("arg0".toList, "1".toList), ("arg1".toList, "2".toList)] :
        List (List Char × List Char)).Perm
      [("arg1".toList, "2".toList), ("arg0".toList, "1".toList)] ∧
    (([("arg0".toList, "1".toList), ("arg1".toList, "2".toList)] :
        List (List Char × List Char)).map Prod.fst).Nodup ∧
    (∃ m m',
      resolveArgs (keyedTokens [("arg0".toList, "1".toList), ("arg1".toList, "2".toList)])
        ["arg0".toList, "arg1".toList] 0 [] = ROut.ok m ∧
      resolveArgs (keyedTokens [("arg1".toList, "2".toList), ("arg0".toList, "1".toList)])
        ["arg0".toList, "arg1".toList] 0 [] = ROut.ok m' ∧
      ∀ k, mapLookup m k = mapLookup m' k) :=
  ⟨List.Perm.swap _ _ _, by decide,
    c6_keyed_permutation _ _ ["arg0".toList, "arg1".toList]
      (List.Perm.swap _ _ _) (by decide)⟩

/-- Helper for C7: a `--key` token with nothing after the key parses as the
key with an absent value. -/
theorem parse_argument_dangling_key (key : List Char) (h1 : key ≠ [])
    (h2 : ' ' ∉ key) :
    parse_argument ('-' :: '-' :: key) = some ([], (key, none)) := by
  have hall : ∀ c ∈ key, (fun c => decide (c ≠ ' ')) c = true := by
    intro c hc
    simp only [decide_eq_true_eq]
    rintro rfl
    exact h2 hc
  have hsp : space0 ('-' :: '-' :: key) = '-' :: '-' :: key :=
    dropWhile_cons_neg (by decide)
  rw [parse_argument]
  simp only [hsp]
  rw [if_pos (show List.take 2 ('-' :: '-' :: key) = ['-', '-'] from rfl)]
  rw [show List.drop 2 ('-' :: '-' :: key) = key from rfl]
  rw [takeWhile1, if_neg (by rw [takeWhile_all hall]; exact fun e => h1 e),
    takeWhile_all hall, dropWhile_all hall]
  rfl

/-- Claim C7 (refuted): with schema `["gold"]` and input `"--gold"` (a keyed
token with no following value), decoding does not fail with an `ArityError`:
`parse_arguments` succeeds, having reinterpreted the valueless keyed token as
a positional one bound to the key's own text. -/
theorem c7_counterexample :
    parse_arguments "--gold".toList ["gold".toList] =
      POut.ok [] [("gold".toList, "gold".toList)] := by
  decide

/-- Claim C7 as amended: a `--key` token with no following value is tokenized
as a keyed token with an absent value, but the Positional Resolver then
treats it as a positional token, binding the next unconsumed schema field to
the key's text; no `ArityError` is raised, whether or not the field is
optional. -/
theorem c7_dangling_key_repositioned (key f : List Char) (h1 : key ≠ [])
    (h2 : ' ' ∉ key) :
    parse_argument ('-' :: '-' :: key) = some ([], (key, none)) ∧
    resolveArgs [(key, none)] [f] 0 [] = ROut.ok [(f, key)] :=
  ⟨parse_argument_dangling_key key h1 h2, rfl⟩

/-- Witness for the amended C7 at `--gold` against the one-field schema
`[gold]`. -/
theorem c7_dangling_key_repositioned_witness :
    ("gold".toList ≠ [] ∧ ' ' ∉ "gold".toList) ∧
    parse_argument ('-' :: '-' :: "gold".toList) =
      some ([], ("gold".toList, none)) ∧
    resolveArgs [("gold".toList, none)] ["gold".toList] 0 [] =
      ROut.ok [("gold".toList, "gold".toList)] :=
  ⟨⟨by decide, by decide⟩,
    c7_dangling_key_repositioned "gold".toList "gold".toList (by decide) (by decide)⟩

/-- Claim C9 (refuted): a primitive decode request (here `u64` against the
typed deserializer and `str` against the dynamic one) does not return an
`UnsupportedOperationError` value distinguishable from the other error kinds:
both `deserialize_any` implementations are `unimplemented!`, so the forwarded
call panics instead of returning any error. -/
theorem c9_counterexample :
    typedCliDeserialize "100".toList ["gold".toList] SerdeOp.u64 = VOut.panicked ∧
    cliDeserialize "setgoldreflect 100".toList [] SerdeOp.str = VOut.panicked :=
  ⟨rfl, rfl⟩

/-- Claim C9 as amended: every decode request other than the implemented
operation (`deserialize_struct` for the typed deserializer, `deserialize_map`
for the dynamic one) aborts with the `unimplemented!("deserialize_any not
implemented")` panic — a programmer-usage abort, not a returned error value
of any kind. -/
theorem c9_unsupported_op_panics (input : List Char) (fields : List (List Char))
    (registry : List TypeRegistration) (op : SerdeOp)
    (h1 : op ≠ SerdeOp.struct_) (h2 : op ≠ SerdeOp.map) :
    typedCliDeserialize input fields op = VOut.panicked ∧
    cliDeserialize input registry op = VOut.panicked := by
  cases op <;> first
    | exact absurd rfl h1
    | exact absurd rfl h2
    | exact ⟨rfl, rfl⟩

/-- Witness for the amended C9 at the `u64` primitive operation. -/
theorem c9_unsupported_op_panics_witness :
    (SerdeOp.u64 ≠ SerdeOp.struct_ ∧ SerdeOp.u64 ≠ SerdeOp.map) ∧
    typedCliDeserialize "100".toList ["gold".toList] SerdeOp.u64 = VOut.panicked ∧
    cliDeserialize "100".toList [] SerdeOp.u64 = VOut.panicked :=
  ⟨⟨by decide, by decide⟩,
    c9_unsupported_op_panics "100".toList ["gold".toList] [] SerdeOp.u64
      (by decide) (by decide)⟩

/-- Claim C10: the typed struct decode is a function of the tokens parsed
greedily from the left alone — any trailing suffix the tokenizer cannot parse
as a further argument is silently discarded, so two inputs with the same
token list decode identically (in particular `"100"` and `"100 --"` over
schema `[gold]`, see the witness). -/
theorem c10_trailing_suffix_discarded (in1 in2 : List Char)
    (fields : List (List Char))
    (h : (tokenizeArgs in1).1 = (tokenizeArgs in2).1) :
    typedCliDeserialize in1 fields SerdeOp.struct_ =
      typedCliDeserialize in2 fields SerdeOp.struct_ := by
  rw [typed_struct_eq, typed_struct_eq, h]

/-- Witness for C10: `"100 --"` leaves the dangling `" --"` unconsumed, and
decodes to the same `{gold: 100}` map as `"100"`. -/
theorem c10_trailing_suffix_discarded_witness :
    (tokenizeArgs "100 --".toList).1 = (tokenizeArgs "100".toList).1 ∧
    typedCliDeserialize "100 --".toList ["gold".toList] SerdeOp.struct_ =
      typedCliDeserialize "100".toList ["gold".toList] SerdeOp.struct_ ∧
    typedCliDeserialize "100".toList ["gold".toList] SerdeOp.struct_ =
      VOut.visitMap [("gold".toList, "100".toList)] ∧
    tokenizeArgs "100 --".toList = ([("100".toList, none)], " --".toList) :=
  ⟨by decide, c10_trailing_suffix_discarded _ _ _ (by decide), by decide, by decide⟩

/-- Claim C3: when the first space-delimited token of the input
case-insensitively equals the identifier of some registration, the dynamic
decode resolves to the first such registration in registry iteration order
and exposes a single-entry map keyed by that registration's canonical
`type_path`, whose value is the delegated typed decode of the remainder of
the line. -/
theorem c3_case_insensitive_first_match (pre post : List TypeRegistration)
    (reg : TypeRegistration) (tok rest : List Char) (h1 : tok ≠ [])
    (h2 : ' ' ∉ tok) (h3 : rest = [] ∨ ∃ r, rest = ' ' :: r)
    (h4 : ∀ r ∈ pre, regMatches tok r = false)
    (h5 : regMatches tok reg = true) :
    cliDeserialize (tok ++ rest) (pre ++ reg :: post) SerdeOp.map =
      VOut.visitMap [(reg.type_path, rest)] := by
  have hall : ∀ c ∈ tok, (fun c => decide (c ≠ ' ')) c = true := by
    intro c hc
    simp only [decide_eq_true_eq]
    rintro rfl
    exact h2 hc
  have hname : (tok ++ rest).takeWhile (fun c => decide (c ≠ ' ')) = tok := by
    rw [takeWhile_append_all rest hall]
    rcases h3 with rfl | ⟨r, rfl⟩
    · simp
    · rw [takeWhile_cons_neg (by decide)]
      simp
  simp only [cliDeserialize, hname]
  rw [if_neg h1, find?_none_append h4, List.find?_cons_of_pos _ h5,
    List.drop_left]

/-- Witness for C3: the `SetGoldReflect` registration is resolved by the
lowercased input `setgoldreflect 100`, the remainder ` 100` is delegated to
the typed decoder over schema `[gold]`, and the value decodes to 100. -/
theorem c3_case_insensitive_first_match_witness :
    ("setgoldreflect".toList ≠ [] ∧ ' ' ∉ "setgoldreflect".toList ∧
      regMatches "setgoldreflect".toList
        ⟨some "SetGoldReflect".toList, "tests::SetGoldReflect".toList⟩ = true) ∧
    cliDeserialize ("setgoldreflect".toList ++ " 100".toList)
      ([] ++ ⟨some "SetGoldReflect".toList, "tests::SetGoldReflect".toList⟩ :: [])
      SerdeOp.map =
      VOut.visitMap [("tests::SetGoldReflect".toList, " 100".toList)] ∧
    typedCliDeserialize " 100".toList ["gold".toList] SerdeOp.struct_ =
      VOut.visitMap [("gold".toList, "100".toList)] ∧
    ronDecodeNat "100".toList = some 100 :=
  ⟨⟨by decide, by decide, by decide⟩,
    c3_case_insensitive_first_match [] []
      ⟨some "SetGoldReflect".toList, "tests::SetGoldReflect".toList⟩
      "setgoldreflect".toList " 100".toList (by decide) (by decide)
      (Or.inr ⟨"100".toList, rfl⟩) (fun r hr => absurd hr (List.not_mem_nil r))
      (by decide),
    by decide, by decide⟩

/-- Claim C5 (refuted): an unterminated double quote or parenthesis does not
make tokenization fail: on `"200 ` (unterminated quote) tokenization succeeds
with the bareword token `"200`, the struct decode succeeds over schema
`[arg0]`, and on `(gold` (unterminated parenthesis) tokenization likewise
succeeds with the bareword token `(gold`. -/
theorem c5_counterexample :
    tokenizeArgs "\"200 ".toList = ([("\"200".toList, none)], [' ']) ∧
    typedCliDeserialize "\"200 ".toList ["arg0".toList] SerdeOp.struct_ =
      VOut.visitMap [("arg0".toList, "\"200".toList)] ∧
    tokenizeArgs "(gold".toList = ([("(gold".toList, none)], []) :=
  ⟨by decide, by decide, by decide⟩

/-- Claim C5 as amended: an unterminated quote or parenthesis is not a
tokenization error.  The quoted (resp. parenthesized) alternative fails and
the text is consumed by the bareword alternative as a maximal run of
non-whitespace characters, the opening delimiter retained in the token; the
tokenizer succeeds and no `GrammarError` is surfaced. -/
theorem c5_unterminated_is_bareword (body : List Char)
    (h2 : ∀ c ∈ body, is_not_space c = true ∧ c ≠ '"' ∧ c ≠ ')') :
    tokenizeArgs ('"' :: body) = ([('"' :: body, none)], []) ∧
    tokenizeArgs ('(' :: body) = ([('(' :: body, none)], []) := by
  have hns : ∀ c ∈ body, is_not_space c = true := fun c hc => (h2 c hc).1
  have hp1 : parse_argument ('"' :: body) = some ([], ('"' :: body, none)) :=
    parse_argument_bareword '"' body (by decide) (by decide)
      (parse_quoted_string_unterminated body (fun c hc => (h2 c hc).2.1))
      (parse_ron_value_not_paren '"' body (by decide)) hns
  have hp2 : parse_argument ('(' :: body) = some ([], ('(' :: body, none)) :=
    parse_argument_bareword '(' body (by decide) (by decide)
      (parse_quoted_string_not_quote '(' body (by decide))
      (parse_ron_value_unterminated body (fun c hc => (h2 c hc).2.2)) hns
  constructor
  · rw [tokenizeArgs]
    simp only [List.length_cons, manyAux, hp1, parse_argument_nil, manyAux_nil]
  · rw [tokenizeArgs]
    simp only [List.length_cons, manyAux, hp2, parse_argument_nil, manyAux_nil]

/-- Witness for the amended C5 at the unterminated bodies `"ab` and `(ab`. -/
theorem c5_unterminated_is_bareword_witness :
    (∀ c ∈ "ab".toList, is_not_space c = true ∧ c ≠ '"' ∧ c ≠ ')') ∧
    tokenizeArgs ('"' :: "ab".toList) = ([('"' :: "ab".toList, none)], []) ∧
    tokenizeArgs ('(' :: "ab".toList) = ([('(' :: "ab".toList, none)], []) :=
  ⟨by decide, c5_unterminated_is_bareword "ab".toList (by decide)⟩

/-- Claim C8: the interior of a quoted token, trailing and interior spaces
included, passes through tokenization byte-for-byte (the `recognize` keeps
the delimiters around the untouched interior) and the value decode strips
exactly the two delimiters, returning the interior unchanged. -/
theorem c8_quote_interior_preserved (body rest : List Char) (h1 : body ≠ [])
    (h2 : ∀ c ∈ body, c ≠ '"') :
    parse_quoted_string ('"' :: (body ++ '"' :: rest)) =
      some (rest, '"' :: (body ++ ['"'])) ∧
    parse_value ('"' :: (body ++ '"' :: rest)) =
      some (rest, '"' :: (body ++ ['"'])) ∧
    ronDecodeString ('"' :: (body ++ ['"'])) = some body := by
  have hall : ∀ c ∈ body, (fun x => decide (x ≠ '"')) c = true := by
    intro c hc
    simp only [decide_eq_true_eq]
    exact h2 c hc
  have htw : (body ++ '"' :: rest).takeWhile (fun x => decide (x ≠ '"')) = body := by
    rw [takeWhile_append_all _ hall, takeWhile_cons_neg (by decide)]
    simp
  have hdw : (body ++ '"' :: rest).dropWhile (fun x => decide (x ≠ '"')) =
      '"' :: rest := by
    rw [dropWhile_append_all _ hall, dropWhile_cons_neg (by decide)]
  have hq : parse_quoted_string ('"' :: (body ++ '"' :: rest)) =
      some (rest, '"' :: (body ++ ['"'])) := by
    simp only [parse_quoted_string]
    rw [htw, hdw, if_pos trivial, if_neg h1]
    rfl
  refine ⟨hq, ?_, ?_⟩
  · have hsp : space0 ('"' :: (body ++ '"' :: rest)) =
        '"' :: (body ++ '"' :: rest) :=
      dropWhile_cons_neg (by decide)
    rw [parse_value]
    simp only [hsp]
    rw [hq]
  · simp only [ronDecodeString]
    rw [if_pos trivial, List.getLast?_concat]
    simp [List.dropLast_concat]

/-- Witness for C8 at the interior `200 ` (trailing space), with the full
decode of the spec's example `100 "200 "` over schema `[arg0, arg1]`. -/
theorem c8_quote_interior_preserved_witness :
    ("200 ".toList ≠ [] ∧ ∀ c ∈ "200 ".toList, c ≠ '"') ∧
    (parse_quoted_string ('"' :: ("200 ".toList ++ '"' :: [])) =
        some ([], '"' :: ("200 ".toList ++ ['"'])) ∧
      parse_value ('"' :: ("200 ".toList ++ '"' :: [])) =
        some ([], '"' :: ("200 ".toList ++ ['"'])) ∧
      ronDecodeString ('"' :: ("200 ".toList ++ ['"'])) = some "200 ".toList) ∧
    parse_arguments "100 \"200 \"".toList ["arg0".toList, "arg1".toList] =
      POut.ok [] [("arg1".toList, "\"200 \"".toList), ("arg0".toList, "100".toList)] ∧
    mapLookup [("arg1".toList, "\"200 \"".toList), ("arg0".toList, "100".toList)]
      "arg1".toList = some "\"200 \"".toList ∧
    ronDecodeString "\"200 \"".toList = some "200 ".toList ∧
    ronDecodeNat "100".toList = some 100 :=
  ⟨⟨by decide, by decide⟩,
    c8_quote_interior_preserved "200 ".toList [] (by decide) (by decide),
    by decide, by decide, by decide, by decide⟩

end Cli
